import Mathlib

/-!
Verification development for the gxObserver event-dispatch engine.

Shallow embedding of the core: event parameter caching (SetParams),
callback iteration (gxEvent::Fire / fireAll, gxEvent1::Fire / fireOne),
the subject firing-mode dispatch (gxSubject::Fire), the macro-generated
per-event Fire and bound-event subscribe methods, and the suspend /
queue / resume machinery.

Handlers are modelled as pure observations: dispatch returns the list of
invocations it performs, each recorded as (event identity, observer
identity, parameter value), in invocation order.  Events here carry one
parameter of type alpha, matching the gxEvent1 specialisation that every
claim is about.
-/

set_option autoImplicit false

universe u

/-- The firing mode of a subject: mFiringMode takes the values on, queue
and off (Enabled, SuspendedQueueing, SuspendedDropping). -/
inductive FiringMode where
  | on
  | queue
  | off
deriving DecidableEq, Repr

/-- A FastDelegate callback: bound to one observer instance and one member
handler.  Equality relevant to the registry is by observer identity (the
instance address), never by handler. -/
structure Callback where
  observer : Nat
  handler : Nat
deriving DecidableEq, Repr

/-- A gxEvent1 event: the list of registered callbacks mCallbacks (in
registration order) and the cached last parameter m1. -/
structure gxEvent (α : Type u) where
  mCallbacks : List Callback
  m1 : α
deriving DecidableEq, Repr

/-- The observer identities registered on an event, in registration
order. -/
def ObserversOf {α : Type u} (ev : gxEvent α) : List Nat :=
  ev.mCallbacks.map Callback.observer

/-- gxEvent1::SetParams( t1 a1 ): m1 = a1. -/
def gxEvent.SetParams {α : Type u} (ev : gxEvent α) (a1 : α) : gxEvent α :=
  { ev with m1 := a1 }

/-- gxEvent::Fire(): iterates mCallbacks in order; each iteration calls the
specialised gxEvent1::Fire( gxCallback ), which invokes the delegate with
the cached m1.  Returns the (observer, value) invocations performed. -/
def gxEvent.FireAll {α : Type u} (ev : gxEvent α) : List (Nat × α) :=
  ev.mCallbacks.map (fun cb => (cb.observer, ev.m1))

/-- gxEvent1::Fire( gxCallback &aCallback ): sets the delegate memento to
the given callback and invokes it with the cached m1.  The given callback
is invoked directly, whether or not it is in mCallbacks. -/
def gxEvent.FireOne {α : Type u} (ev : gxEvent α) (cb : Callback) : List (Nat × α) :=
  [(cb.observer, ev.m1)]

/-- Modelled from the spec: the registration performed by
gxSubject::Subscribe / the event callback registry (gxEvent.h is not among
the sources; the article states that the same object is not allowed to
register more than once to the same event, and the spec states that a
duplicate registration is a silent no-op while a new callback is appended
to the ordered set). -/
def gxEvent.register {α : Type u} (ev : gxEvent α) (cb : Callback) : gxEvent α :=
  if cb.observer ∈ ObserversOf ev then ev
  else { ev with mCallbacks := ev.mCallbacks ++ [cb] }

/-- A gxSubject: its events (by event identity), the firing mode and the
pending event queue. -/
structure gxSubject (α : Type u) where
  events : Nat → gxEvent α
  mFiringMode : FiringMode
  mQueue : List Nat

/-- Replace the event stored under one event identity. -/
def gxSubject.setEvent {α : Type u} (s : gxSubject α) (e : Nat) (ev : gxEvent α) :
    gxSubject α :=
  { s with events := fun i => if i = e then ev else s.events i }

/-- Modelled from the spec: QueueEvent (gxSubject.h is not among the
sources; the article states that while suspended with a queue each event
will only be fired once on resume, and the spec states that the event
identity is added to the queue only if not already present). -/
def gxSubject.QueueEvent {α : Type u} (s : gxSubject α) (e : Nat) : gxSubject α :=
  if e ∈ s.mQueue then s else { s with mQueue := s.mQueue ++ [e] }

/-- gxSubject::Fire( gxEvent &aEvent, gxCallback aCallback ): when the mode
is on, fire the one requested callback if one was given, otherwise fire
all; when the mode is queue, QueueEvent; when the mode is off, do
nothing.  Invocations are tagged with the event identity. -/
def gxSubject.FireEv {α : Type u} (s : gxSubject α) (e : Nat) (aCallback : Option Callback) :
    gxSubject α × List (Nat × Nat × α) :=
  match s.mFiringMode with
  | .on =>
      (s, match aCallback with
          | none => ((s.events e).FireAll).map (fun x => (e, x.1, x.2))
          | some cb => ((s.events e).FireOne cb).map (fun x => (e, x.1, x.2)))
  | .queue => (s.QueueEvent e, [])
  | .off => (s, [])

/-- The macro-generated Fire( evAgeType &aEvent, int a1 ): first
aEvent.SetParams( a1 ), then gxSubject::Fire( aEvent ) with no requested
callback. -/
def gxSubject.Fire {α : Type u} (s : gxSubject α) (e : Nat) (a1 : α) :
    gxSubject α × List (Nat × Nat × α) :=
  (s.setEvent e ((s.events e).SetParams a1)).FireEv e none

/-- The macro-generated bound-event subscribe method (evNameSubscribe):
Subscribe( evName, aDelegate.GetMemento() ), then
evName.SetParams( GetName() ), then
gxSubject::Fire( evName, aDelegate.GetMemento() ).  The resolver output at
subscribe time is passed as resolverValue. -/
def gxSubject.BoundSubscribe {α : Type u} (s : gxSubject α) (e : Nat) (resolverValue : α)
    (cb : Callback) : gxSubject α × List (Nat × Nat × α) :=
  let s1 := s.setEvent e ((s.events e).register cb)
  let s2 := s1.setEvent e ((s1.events e).SetParams resolverValue)
  s2.FireEv e (some cb)

/-- Modelled from the spec: SuspendEvents( queueing ) (gxSubject.h is not
among the sources); queueing moves the mode to queue, not queueing moves
the mode to off and discards any pending queue without firing it. -/
def gxSubject.SuspendEvents {α : Type u} (s : gxSubject α) (queueing : Bool) : gxSubject α :=
  if queueing then { s with mFiringMode := .queue }
  else { s with mFiringMode := .off, mQueue := [] }

/-- Modelled from the spec: ResumeEvents (gxSubject.h is not among the
sources; the article states that only the cached values are fired when
ResumeEvents is called and each event is fired once): drain the pending
queue in insertion order, calling fireAll once per queued identity with
its current cached parameters, then clear the queue and return to the on
mode. -/
def gxSubject.ResumeEvents {α : Type u} (s : gxSubject α) : gxSubject α × List (Nat × Nat × α) :=
  ({ s with mFiringMode := .on, mQueue := [] },
   s.mQueue.flatMap (fun e => ((s.events e).FireAll).map (fun x => (e, x.1, x.2))))

/-- Fire a whole sequence of (event, value) requests, concatenating the
invocation traces. -/
def gxSubject.fireSeq {α : Type u} (s : gxSubject α) :
    List (Nat × α) → gxSubject α × List (Nat × Nat × α)
  | [] => (s, [])
  | (e, v) :: rest =>
      let p := s.Fire e v
      let q := p.1.fireSeq rest
      (q.1, p.2 ++ q.2)

/-- The sequence of first occurrences of a list of event identities, in
order of first occurrence. -/
def firstOcc : List Nat → List Nat
  | [] => []
  | e :: rest => e :: firstOcc (rest.filter (fun x => decide (x ≠ e)))
termination_by l => l.length
decreasing_by
  simp only [List.length_cons]
  exact Nat.lt_succ_of_le (List.length_filter_le _ _)

/-- The parameter cached for event e after firing the requests fs, starting
from the cached value init. -/
def lastParamAfter {α : Type u} (init : α) (fs : List (Nat × α)) (e : Nat) : α :=
  fs.foldl (fun acc p => if p.1 = e then p.2 else acc) init

/-- The queue accumulated by QueueEvent over a sequence of event
identities. -/
def enqAll (q : List Nat) (es : List Nat) : List Nat :=
  es.foldl (fun acc e => if e ∈ acc then acc else acc ++ [e]) q

/-- A sample event with two registered observers (identities 1 and 2) and
cached parameter 0. -/
def sampleEvent : gxEvent Nat :=
  { mCallbacks := [⟨1, 10⟩, ⟨2, 20⟩], m1 := 0 }

/-- A sample enabled subject, every event identity mapped to sampleEvent. -/
def sampleSubject : gxSubject Nat :=
  { events := fun _ => sampleEvent, mFiringMode := .on, mQueue := [] }

/-- A sample subject suspended with queueing. -/
def queueSubject : gxSubject Nat :=
  { events := fun _ => sampleEvent, mFiringMode := .queue, mQueue := [] }

/-- A sample subject suspended without queueing (dropping). -/
def dropSubject : gxSubject Nat :=
  { events := fun _ => sampleEvent, mFiringMode := .off, mQueue := [] }

/-- A subject whose every event has an empty callback list. -/
def emptyCallbackSubject : gxSubject Nat :=
  { events := fun _ => { mCallbacks := [], m1 := 0 }, mFiringMode := .on, mQueue := [] }

theorem filter_observer_length_one (o : Nat) :
    ∀ cbs : List Callback, (cbs.map Callback.observer).Nodup →
      o ∈ cbs.map Callback.observer →
      (cbs.filter (fun cb => decide (cb.observer = o))).length = 1
  | [], _, ho => by simp at ho
  | cb :: t, hnd, ho => by
      rw [List.map_cons, List.nodup_cons] at hnd
      rw [List.filter_cons]
      by_cases h : cb.observer = o
      · have ht : t.filter (fun c => decide (c.observer = o)) = [] := by
          rw [List.filter_eq_nil_iff]
          intro c hc
          simp only [decide_eq_true_eq]
          intro hco
          exact hnd.1 (h ▸ hco ▸ List.mem_map_of_mem Callback.observer hc)
        simp [h, ht]
      · have ho' : o ∈ t.map Callback.observer := by
          rcases List.mem_cons.mp ho with h1 | h1
          · exact absurd h1.symm h
          · exact h1
        simpa [h] using filter_observer_length_one o t hnd.2 ho'

theorem filter_length_map {β : Type u} (pr : β → Nat) (g : Callback → β)
    (hg : ∀ cb, pr (g cb) = cb.observer) (o : Nat) :
    ∀ cbs : List Callback,
      ((cbs.map g).filter (fun x => decide (pr x = o))).length
        = (cbs.filter (fun cb => decide (cb.observer = o))).length
  | [] => by simp
  | cb :: t => by
      rw [List.map_cons, List.filter_cons, List.filter_cons]
      by_cases h : cb.observer = o
      · simp [hg, h, filter_length_map pr g hg o t]
      · simp [hg, h, filter_length_map pr g hg o t]

/-- C1: subscribing a not-yet-registered observer to a BoundEvent while the
subject firing mode is on performs exactly one handler invocation, to that
observer, carrying the current resolver value, and performs no invocation
of any previously registered observer. -/
theorem C1_bound_subscribe_enabled {α : Type u} (s : gxSubject α) (e : Nat) (r : α)
    (cb : Callback) (hm : s.mFiringMode = .on)
    (ho : cb.observer ∉ ObserversOf (s.events e)) :
    (s.BoundSubscribe e r cb).2 = [(e, cb.observer, r)]
    ∧ ∀ o ∈ ObserversOf (s.events e), ∀ x ∈ (s.BoundSubscribe e r cb).2, x.2.1 ≠ o := by
  have htrace : (s.BoundSubscribe e r cb).2 = [(e, cb.observer, r)] := by
    simp [gxSubject.BoundSubscribe, gxSubject.setEvent, gxSubject.FireEv, hm,
      gxEvent.FireOne, gxEvent.SetParams]
  refine ⟨htrace, ?_⟩
  intro o hoo x hx
  rw [htrace] at hx
  rcases List.mem_singleton.mp hx with rfl
  intro hcontra
  have hobs : cb.observer = o := hcontra
  exact ho (hobs ▸ hoo)

/-- C1 witness: a concrete subject in the on mode, new observer 3. -/
theorem C1_witness :
    sampleSubject.mFiringMode = .on
    ∧ (Callback.mk 3 30).observer ∉ ObserversOf (sampleSubject.events 0)
    ∧ ((sampleSubject.BoundSubscribe 0 7 ⟨3, 30⟩).2 = [(0, (Callback.mk 3 30).observer, 7)]
       ∧ ∀ o ∈ ObserversOf (sampleSubject.events 0),
           ∀ x ∈ (sampleSubject.BoundSubscribe 0 7 ⟨3, 30⟩).2, x.2.1 ≠ o) :=
  ⟨rfl, by decide, C1_bound_subscribe_enabled sampleSubject 0 7 ⟨3, 30⟩ rfl (by decide)⟩

/-- C3 counterexample: with the subject suspended (dropping, and likewise
queueing), subscribing a new observer to a BoundEvent performs no handler
invocation at all, so the subscribe-time delivery is not unaffected by the
firing mode. -/
theorem C3_counterexample :
    (dropSubject.BoundSubscribe 0 7 ⟨3, 30⟩).2 = []
    ∧ (queueSubject.BoundSubscribe 0 7 ⟨3, 30⟩).2 = []
    ∧ (dropSubject.BoundSubscribe 0 7 ⟨3, 30⟩).2 ≠ [(0, 3, 7)] := by
  refine ⟨rfl, rfl, by decide⟩

/-- C3 (amended): bound-event subscribe delivery goes through the
gxSubject firing-mode dispatch: in the on mode the new observer is invoked
once with the resolver value; in the queue mode no handler is invoked and
the event identity is queued instead; in the off mode nothing is invoked
or queued. -/
theorem C3_amended_bound_subscribe_mode {α : Type u} (s : gxSubject α) (e : Nat) (r : α)
    (cb : Callback) :
    (s.BoundSubscribe e r cb).2
      = (match s.mFiringMode with
         | .on => [(e, cb.observer, r)]
         | .queue => []
         | .off => [])
    ∧ (s.BoundSubscribe e r cb).1.mQueue
      = (match s.mFiringMode with
         | .queue => if e ∈ s.mQueue then s.mQueue else s.mQueue ++ [e]
         | _ => s.mQueue) := by
  cases h : s.mFiringMode <;>
    simp [gxSubject.BoundSubscribe, gxSubject.setEvent, gxSubject.FireEv, h,
      gxEvent.FireOne, gxEvent.SetParams, gxSubject.QueueEvent] <;>
    (try (split <;> rfl))

/-- C4 counterexample: observer 1 is already registered on the sample
event, yet the bound-event subscribe still delivers to it and still
overwrites the cached parameter (0 becomes 7), contradicting the claim
that a duplicate subscribe performs no setParams and no delivery. -/
theorem C4_counterexample :
    (Callback.mk 1 99).observer ∈ ObserversOf (sampleSubject.events 0)
    ∧ (sampleSubject.BoundSubscribe 0 7 ⟨1, 99⟩).2 = [(0, 1, 7)]
    ∧ ((sampleSubject.BoundSubscribe 0 7 ⟨1, 99⟩).1.events 0).m1 = 7
    ∧ (sampleSubject.events 0).m1 = 0 := by
  refine ⟨by decide, rfl, rfl, rfl⟩

/-- C4 (amended): on a bound-event subscribe with the subject in the on
mode, the resolver resolution, the setParams and the single-target
delivery happen unconditionally, even when the observer identity is
already registered; only the registry insertion is deduplicated (the
callback list is unchanged by a duplicate subscribe). -/
theorem C4_amended_duplicate_subscribe_delivers {α : Type u} (s : gxSubject α) (e : Nat)
    (r : α) (cb : Callback) (hm : s.mFiringMode = .on)
    (ho : cb.observer ∈ ObserversOf (s.events e)) :
    (s.BoundSubscribe e r cb).2 = [(e, cb.observer, r)]
    ∧ ((s.BoundSubscribe e r cb).1.events e).mCallbacks = (s.events e).mCallbacks
    ∧ ((s.BoundSubscribe e r cb).1.events e).m1 = r := by
  simp [gxSubject.BoundSubscribe, gxSubject.setEvent, gxSubject.FireEv, hm,
    gxEvent.FireOne, gxEvent.SetParams, gxEvent.register, ho]

/-- C4 witness: the amended statement at a concrete duplicate subscribe. -/
theorem C4_witness :
    sampleSubject.mFiringMode = .on
    ∧ (Callback.mk 1 99).observer ∈ ObserversOf (sampleSubject.events 0)
    ∧ ((sampleSubject.BoundSubscribe 0 7 ⟨1, 99⟩).2 = [(0, (Callback.mk 1 99).observer, 7)]
       ∧ ((sampleSubject.BoundSubscribe 0 7 ⟨1, 99⟩).1.events 0).mCallbacks
           = (sampleSubject.events 0).mCallbacks
       ∧ ((sampleSubject.BoundSubscribe 0 7 ⟨1, 99⟩).1.events 0).m1 = 7) :=
  ⟨rfl, by decide,
    C4_amended_duplicate_subscribe_delivers sampleSubject 0 7 ⟨1, 99⟩ rfl (by decide)⟩

/-- C5: firing an event with the subject in the on mode first caches the
argument as the event last-params and then invokes every registered
callback, in registration order, each carrying that argument. -/
theorem C5_fire_enabled {α : Type u} (s : gxSubject α) (e : Nat) (a : α)
    (hm : s.mFiringMode = .on) :
    (s.Fire e a).2 = (s.events e).mCallbacks.map (fun cb => (e, cb.observer, a))
    ∧ ((s.Fire e a).1.events e).m1 = a := by
  simp [gxSubject.Fire, gxSubject.setEvent, gxSubject.FireEv, hm, gxEvent.FireAll,
    gxEvent.SetParams]

/-- C5 witness: firing the sample subject invokes observers 1 and 2 in
registration order with the fired value. -/
theorem C5_witness :
    sampleSubject.mFiringMode = .on
    ∧ ((sampleSubject.Fire 0 42).2
         = (sampleSubject.events 0).mCallbacks.map (fun cb => (0, cb.observer, 42))
       ∧ ((sampleSubject.Fire 0 42).1.events 0).m1 = 42) :=
  ⟨rfl, C5_fire_enabled sampleSubject 0 42 rfl⟩

/-- C8: firing an event with the subject in the off mode caches the
argument as last-params but queues nothing and invokes nothing, and a
following resume performs no invocation for that event (provided it is not
already pending in the queue). -/
theorem C8_fire_dropping {α : Type u} (s : gxSubject α) (e : Nat) (a : α)
    (hm : s.mFiringMode = .off) :
    (s.Fire e a).2 = []
    ∧ ((s.Fire e a).1.events e).m1 = a
    ∧ (s.Fire e a).1.mQueue = s.mQueue
    ∧ (e ∉ s.mQueue → ∀ x ∈ ((s.Fire e a).1.ResumeEvents).2, x.1 ≠ e) := by
  refine ⟨?_, ?_, ?_, ?_⟩
  · simp [gxSubject.Fire, gxSubject.setEvent, gxSubject.FireEv, hm]
  · simp [gxSubject.Fire, gxSubject.setEvent, gxSubject.FireEv, hm, gxEvent.SetParams]
  · simp [gxSubject.Fire, gxSubject.setEvent, gxSubject.FireEv, hm]
  · intro hq x hx
    simp only [gxSubject.Fire, gxSubject.setEvent, gxSubject.FireEv, hm,
      gxSubject.ResumeEvents, List.mem_flatMap, List.mem_map] at hx
    rcases hx with ⟨e1, he1, y, _, rfl⟩
    intro hcontra
    exact hq (hcontra ▸ he1)

/-- C8 witness: a concrete dropping subject; event 0 is cached but never
delivered. -/
theorem C8_witness :
    dropSubject.mFiringMode = .off
    ∧ ((dropSubject.Fire 0 42).2 = []
       ∧ ((dropSubject.Fire 0 42).1.events 0).m1 = 42
       ∧ (dropSubject.Fire 0 42).1.mQueue = dropSubject.mQueue
       ∧ ((0 : Nat) ∉ dropSubject.mQueue →
           ∀ x ∈ ((dropSubject.Fire 0 42).1.ResumeEvents).2, x.1 ≠ 0)) :=
  ⟨rfl, C8_fire_dropping dropSubject 0 42 rfl⟩

/-- C9: firing an event with no registered callbacks in the on mode caches
the argument and performs no invocation; the operation is total, so it
returns normally. -/
theorem C9_fire_empty_callbacks {α : Type u} (s : gxSubject α) (e : Nat) (a : α)
    (hm : s.mFiringMode = .on) (hc : (s.events e).mCallbacks = []) :
    (s.Fire e a).2 = [] ∧ ((s.Fire e a).1.events e).m1 = a := by
  simp [gxSubject.Fire, gxSubject.setEvent, gxSubject.FireEv, hm, gxEvent.FireAll,
    gxEvent.SetParams, hc]

/-- C9 witness: a concrete subject whose event has an empty callback
list. -/
theorem C9_witness :
    emptyCallbackSubject.mFiringMode = .on
    ∧ (emptyCallbackSubject.events 0).mCallbacks = []
    ∧ ((emptyCallbackSubject.Fire 0 42).2 = []
       ∧ ((emptyCallbackSubject.Fire 0 42).1.events 0).m1 = 42) :=
  ⟨rfl, rfl, C9_fire_empty_callbacks emptyCallbackSubject 0 42 rfl rfl⟩

/-- C10: a duplicate bound-event subscribe (observer identity already
registered) leaves the callback registry unchanged but still overwrites
the event last-params with the resolver output, in every firing mode. -/
theorem C10_duplicate_subscribe_mutates_params {α : Type u} (s : gxSubject α) (e : Nat)
    (r : α) (cb : Callback) (ho : cb.observer ∈ ObserversOf (s.events e)) :
    ((s.BoundSubscribe e r cb).1.events e).mCallbacks = (s.events e).mCallbacks
    ∧ ((s.BoundSubscribe e r cb).1.events e).m1 = r := by
  cases h : s.mFiringMode <;>
    simp [gxSubject.BoundSubscribe, gxSubject.setEvent, gxSubject.FireEv, h,
      gxEvent.SetParams, gxEvent.register, ho, gxSubject.QueueEvent] <;>
    split <;> simp

/-- C10 witness: a concrete duplicate subscribe on the queueing subject
still rewrites the cached parameter. -/
theorem C10_witness :
    (Callback.mk 2 77).observer ∈ ObserversOf (queueSubject.events 0)
    ∧ (((queueSubject.BoundSubscribe 0 8 ⟨2, 77⟩).1.events 0).mCallbacks
         = (queueSubject.events 0).mCallbacks
       ∧ ((queueSubject.BoundSubscribe 0 8 ⟨2, 77⟩).1.events 0).m1 = 8) :=
  ⟨by decide, C10_duplicate_subscribe_mutates_params queueSubject 0 8 ⟨2, 77⟩ (by decide)⟩

/-- C7: registering a callback whose observer identity is already present
is a silent no-op, registration preserves the no-duplicate-observer
invariant, and under that invariant fireAll invokes each registered
observer exactly once. -/
theorem C7_register_dedup {α : Type u} (ev : gxEvent α) (cb : Callback)
    (hnd : (ObserversOf ev).Nodup) :
    (cb.observer ∈ ObserversOf ev → ev.register cb = ev)
    ∧ (ObserversOf (ev.register cb)).Nodup
    ∧ ∀ o ∈ ObserversOf (ev.register cb),
        (((ev.register cb).FireAll).filter (fun x => decide (x.1 = o))).length = 1 := by
  have hnd2 : (ObserversOf (ev.register cb)).Nodup := by
    by_cases ho : cb.observer ∈ ObserversOf ev
    · simpa [gxEvent.register, ho] using hnd
    · unfold gxEvent.register
      rw [if_neg ho]
      unfold ObserversOf at hnd ho ⊢
      simp only [List.map_append, List.map_cons, List.map_nil]
      rw [List.nodup_append]
      refine ⟨hnd, List.nodup_singleton _, ?_⟩
      intro a ha hb
      rw [List.mem_singleton] at hb
      exact ho (hb ▸ ha)
  refine ⟨fun ho => by simp [gxEvent.register, ho], hnd2, ?_⟩
  intro o hoo
  unfold gxEvent.FireAll
  rw [filter_length_map Prod.fst (fun c => (c.observer, (ev.register cb).m1))
    (fun c => rfl) o ((ev.register cb).mCallbacks)]
  exact filter_observer_length_one o ((ev.register cb).mCallbacks) hnd2 hoo

/-- C7 witness: a duplicate registration on the sample event. -/
theorem C7_witness :
    (ObserversOf sampleEvent).Nodup
    ∧ ((Callback.mk 1 50).observer ∈ ObserversOf sampleEvent →
        sampleEvent.register ⟨1, 50⟩ = sampleEvent)
    ∧ (ObserversOf (sampleEvent.register ⟨1, 50⟩)).Nodup
    ∧ ∀ o ∈ ObserversOf (sampleEvent.register ⟨1, 50⟩),
        (((sampleEvent.register ⟨1, 50⟩).FireAll).filter
          (fun x => decide (x.1 = o))).length = 1 :=
  ⟨by decide, C7_register_dedup sampleEvent ⟨1, 50⟩ (by decide)⟩

/-- C2: suspend with queueing, fire v1 then v2 on the same event, resume:
no invocation happens while suspended, resume invokes exactly the
registered observers of that event, once each, carrying v2, and when v1
and v2 differ no invocation of the whole scenario carries v1. -/
theorem C2_suspend_queue_coalesces {α : Type u} (s : gxSubject α) (e : Nat) (v1 v2 : α)
    (hq : s.mQueue = []) (hnd : (ObserversOf (s.events e)).Nodup) :
    ((s.SuspendEvents true).Fire e v1).2 = []
    ∧ (((s.SuspendEvents true).Fire e v1).1.Fire e v2).2 = []
    ∧ ((((s.SuspendEvents true).Fire e v1).1.Fire e v2).1.ResumeEvents).2
        = (s.events e).mCallbacks.map (fun cb => (e, cb.observer, v2))
    ∧ (∀ o ∈ ObserversOf (s.events e),
        (((((s.SuspendEvents true).Fire e v1).1.Fire e v2).1.ResumeEvents).2.filter
          (fun x => decide (x.2.1 = o))).length = 1)
    ∧ (v1 ≠ v2 →
        ∀ x ∈ ((((s.SuspendEvents true).Fire e v1).1.Fire e v2).1.ResumeEvents).2,
          x.2.2 ≠ v1) := by
  have htrace : ((((s.SuspendEvents true).Fire e v1).1.Fire e v2).1.ResumeEvents).2
      = (s.events e).mCallbacks.map (fun cb => (e, cb.observer, v2)) := by
    simp [gxSubject.SuspendEvents, gxSubject.Fire, gxSubject.setEvent, gxSubject.FireEv,
      gxSubject.QueueEvent, gxSubject.ResumeEvents, gxEvent.SetParams, gxEvent.FireAll, hq]
  refine ⟨?_, ?_, htrace, ?_, ?_⟩
  · simp [gxSubject.SuspendEvents, gxSubject.Fire, gxSubject.setEvent, gxSubject.FireEv,
      gxSubject.QueueEvent, gxEvent.SetParams, hq]
  · simp [gxSubject.SuspendEvents, gxSubject.Fire, gxSubject.setEvent, gxSubject.FireEv,
      gxSubject.QueueEvent, gxEvent.SetParams, hq]
  · intro o hoo
    rw [htrace]
    rw [filter_length_map (fun x => x.2.1) (fun cb => (e, cb.observer, v2))
      (fun c => rfl) o ((s.events e).mCallbacks)]
    exact filter_observer_length_one o ((s.events e).mCallbacks) hnd hoo
  · intro hne x hx
    rw [htrace] at hx
    rcases List.mem_map.mp hx with ⟨cb, _, rfl⟩
    intro hcontra
    have : v2 = v1 := hcontra
    exact hne this.symm

/-- C2 witness: the sample subject, firing 5 then 9 on event 0. -/
theorem C2_witness :
    sampleSubject.mQueue = []
    ∧ (ObserversOf (sampleSubject.events 0)).Nodup
    ∧ (((sampleSubject.SuspendEvents true).Fire 0 5).2 = []
       ∧ (((sampleSubject.SuspendEvents true).Fire 0 5).1.Fire 0 9).2 = []
       ∧ ((((sampleSubject.SuspendEvents true).Fire 0 5).1.Fire 0 9).1.ResumeEvents).2
           = (sampleSubject.events 0).mCallbacks.map (fun cb => (0, cb.observer, 9))
       ∧ (∀ o ∈ ObserversOf (sampleSubject.events 0),
           (((((sampleSubject.SuspendEvents true).Fire 0 5).1.Fire 0 9).1.ResumeEvents).2.filter
             (fun x => decide (x.2.1 = o))).length = 1)
       ∧ ((5 : Nat) ≠ 9 →
           ∀ x ∈ ((((sampleSubject.SuspendEvents true).Fire 0 5).1.Fire 0 9).1.ResumeEvents).2,
             x.2.2 ≠ 5)) :=
  ⟨rfl, by decide, C2_suspend_queue_coalesces sampleSubject 0 5 9 rfl (by decide)⟩

theorem fireSeq_queue_spec {α : Type u} :
    ∀ (fs : List (Nat × α)) (s : gxSubject α), s.mFiringMode = .queue →
      (s.fireSeq fs).2 = []
      ∧ (s.fireSeq fs).1.mFiringMode = .queue
      ∧ (s.fireSeq fs).1.mQueue = enqAll s.mQueue (fs.map Prod.fst)
      ∧ (∀ i, ((s.fireSeq fs).1.events i).mCallbacks = (s.events i).mCallbacks)
      ∧ (∀ i, ((s.fireSeq fs).1.events i).m1 = lastParamAfter ((s.events i).m1) fs i)
  | [], s, hm => by
      simp [gxSubject.fireSeq, enqAll, lastParamAfter, hm]
  | (e, v) :: rest, s, hm => by
      have hfire : s.Fire e v
          = ((s.setEvent e ((s.events e).SetParams v)).QueueEvent e, []) := by
        simp [gxSubject.Fire, gxSubject.FireEv, gxSubject.setEvent, hm]
      have hmode2 : ((s.setEvent e ((s.events e).SetParams v)).QueueEvent e).mFiringMode
          = .queue := by
        unfold gxSubject.QueueEvent
        split
        · simpa [gxSubject.setEvent] using hm
        · simpa [gxSubject.setEvent] using hm
      have hqueue2 : ((s.setEvent e ((s.events e).SetParams v)).QueueEvent e).mQueue
          = if e ∈ s.mQueue then s.mQueue else s.mQueue ++ [e] := by
        unfold gxSubject.QueueEvent
        simp [gxSubject.setEvent]
        split
        · rfl
        · rfl
      have hevents2 : ∀ i, ((s.setEvent e ((s.events e).SetParams v)).QueueEvent e).events i
          = if i = e then (s.events e).SetParams v else s.events i := by
        intro i
        unfold gxSubject.QueueEvent
        split
        · simp [gxSubject.setEvent]
        · simp [gxSubject.setEvent]
      have ih := fireSeq_queue_spec rest
        ((s.setEvent e ((s.events e).SetParams v)).QueueEvent e) hmode2
      have hseq : s.fireSeq ((e, v) :: rest)
          = ((((s.setEvent e ((s.events e).SetParams v)).QueueEvent e).fireSeq rest).1,
             [] ++ (((s.setEvent e ((s.events e).SetParams v)).QueueEvent e).fireSeq rest).2) := by
        simp only [gxSubject.fireSeq, hfire]
      rw [hseq]
      refine ⟨by simp [ih.1], ih.2.1, ?_, ?_, ?_⟩
      · rw [ih.2.2.1, hqueue2]
        simp [enqAll, List.map_cons, List.foldl_cons]
      · intro i
        rw [ih.2.2.2.1 i, hevents2 i]
        by_cases h : i = e
        · subst h; simp [gxEvent.SetParams]
        · simp [h]
      · intro i
        rw [ih.2.2.2.2 i, hevents2 i]
        by_cases h : i = e
        · subst h
          simp [gxEvent.SetParams, lastParamAfter, List.foldl_cons]
        · have h2 : ¬ e = i := fun hc => h hc.symm
          simp [h, h2, lastParamAfter, List.foldl_cons]

theorem enqAll_eq_append_firstOcc :
    ∀ (es : List Nat) (q : List Nat),
      enqAll q es = q ++ firstOcc (es.filter (fun x => decide (x ∉ q)))
  | [], q => by simp [enqAll, firstOcc]
  | e :: es, q => by
      rw [show enqAll q (e :: es)
            = enqAll (if e ∈ q then q else q ++ [e]) es from rfl]
      by_cases he : e ∈ q
      · rw [if_pos he, enqAll_eq_append_firstOcc es q]
        have hfe : (e :: es).filter (fun x => decide (x ∉ q))
            = es.filter (fun x => decide (x ∉ q)) := by
          rw [List.filter_cons]
          simp [he]
        rw [hfe]
      · rw [if_neg he, enqAll_eq_append_firstOcc es (q ++ [e])]
        have hfe : (e :: es).filter (fun x => decide (x ∉ q))
            = e :: es.filter (fun x => decide (x ∉ q)) := by
          rw [List.filter_cons]
          simp [he]
        rw [hfe, firstOcc]
        have hff : (es.filter (fun x => decide (x ∉ q))).filter (fun x => decide (x ≠ e))
            = es.filter (fun x => decide (x ∉ q ++ [e])) := by
          rw [List.filter_filter]
          apply List.filter_congr
          intro a _
          simp [List.mem_append, not_or, and_comm]
        rw [hff, List.append_assoc]
        rfl

theorem firstOcc_subset : ∀ (l : List Nat), ∀ x ∈ firstOcc l, x ∈ l := by
  intro l
  induction l using firstOcc.induct with
  | case1 => intro x hx; simp [firstOcc] at hx
  | case2 e rest ih =>
      intro x hx
      rw [firstOcc] at hx
      rcases List.mem_cons.mp hx with rfl | hx2
      · exact List.mem_cons_self _ _
      · exact List.mem_cons_of_mem _ (List.mem_filter.mp (ih x hx2)).1

theorem firstOcc_nodup : ∀ l : List Nat, (firstOcc l).Nodup := by
  intro l
  induction l using firstOcc.induct with
  | case1 => simp [firstOcc]
  | case2 e rest ih =>
      rw [firstOcc, List.nodup_cons]
      refine ⟨?_, ih⟩
      intro hmem
      have := List.mem_filter.mp (firstOcc_subset _ e hmem)
      simp at this

/-- C6: with the subject suspended-queueing and the queue initially empty,
firing any sequence of requests invokes no handler; the following resume
leaves an empty queue and the on mode, and its invocation trace runs the
fireAll of each fired event identity exactly once (the drain list has no
duplicate), in the order the identities were first fired, each delivery
carrying the value of the most recent fire of that event. -/
theorem C6_resume_drain_order {α : Type u} (s : gxSubject α) (fs : List (Nat × α))
    (hm : s.mFiringMode = .queue) (hq : s.mQueue = []) :
    (s.fireSeq fs).2 = []
    ∧ ((s.fireSeq fs).1.ResumeEvents).1.mQueue = []
    ∧ ((s.fireSeq fs).1.ResumeEvents).1.mFiringMode = .on
    ∧ (firstOcc (fs.map Prod.fst)).Nodup
    ∧ ((s.fireSeq fs).1.ResumeEvents).2
        = (firstOcc (fs.map Prod.fst)).flatMap
            (fun e => (s.events e).mCallbacks.map
              (fun cb => (e, cb.observer, lastParamAfter ((s.events e).m1) fs e))) := by
  obtain ⟨h1, _, h3, h4, h5⟩ := fireSeq_queue_spec fs s hm
  have hqq : (s.fireSeq fs).1.mQueue = firstOcc (fs.map Prod.fst) := by
    rw [h3, hq, enqAll_eq_append_firstOcc]
    simp
  have hfun : (fun e => (((s.fireSeq fs).1.events e).FireAll).map (fun x => (e, x.1, x.2)))
      = (fun e => (s.events e).mCallbacks.map
          (fun cb => (e, cb.observer, lastParamAfter ((s.events e).m1) fs e))) := by
    funext e
    rw [gxEvent.FireAll, List.map_map, h5 e]
    have hcb := h4 e
    rw [hcb]
    rfl
  refine ⟨h1, rfl, rfl, firstOcc_nodup _, ?_⟩
  show ((s.fireSeq fs).1.mQueue).flatMap _ = _
  rw [hqq, hfun]

/-- C6 witness: firing events 0, 1, 0 with values 5, 6, 7 while queueing,
then resuming. -/
theorem C6_witness :
    queueSubject.mFiringMode = .queue
    ∧ queueSubject.mQueue = []
    ∧ ((queueSubject.fireSeq [(0, 5), (1, 6), (0, 7)]).2 = []
       ∧ ((queueSubject.fireSeq [(0, 5), (1, 6), (0, 7)]).1.ResumeEvents).1.mQueue = []
       ∧ ((queueSubject.fireSeq [(0, 5), (1, 6), (0, 7)]).1.ResumeEvents).1.mFiringMode
           = .on
       ∧ (firstOcc (([(0, 5), (1, 6), (0, 7)] : List (Nat × Nat)).map Prod.fst)).Nodup
       ∧ ((queueSubject.fireSeq [(0, 5), (1, 6), (0, 7)]).1.ResumeEvents).2
           = (firstOcc (([(0, 5), (1, 6), (0, 7)] : List (Nat × Nat)).map Prod.fst)).flatMap
               (fun e => (queueSubject.events e).mCallbacks.map
                 (fun cb => (e, cb.observer,
                   lastParamAfter ((queueSubject.events e).m1) [(0, 5), (1, 6), (0, 7)] e)))) :=
  ⟨rfl, rfl, C6_resume_drain_order queueSubject [(0, 5), (1, 6), (0, 7)] rfl rfl⟩
